import Mathlib

/-!
Verification of the corepack `Engine.ts` resolution/activation core
(`src/sources/Engine.ts`), shallowly embedded in Lean 4.

External collaborators (the semver library, the registry fetchers, the install
cache, the filesystem, the project-spec loader) are modelled as explicit
environment records; the network/cache operations the engine performs are
recorded in an explicit effect trace.
-/

deriving instance DecidableEq for Except

namespace Corepack

/-- A request for a tool: name plus a range (exact version, range expression,
dist-tag, or opaque URL). Mirrors `Descriptor` from `types.ts`. -/
structure Descriptor where
  name : String
  range : String
  deriving DecidableEq, Repr

/-- A fully resolved tool reference. Mirrors `Locator` from `types.ts`. -/
structure Locator where
  name : String
  reference : String
  deriving DecidableEq, Repr

/-- The provisional fallback locator built by `executePackageManagerRequest`:
its `reference` is `undefined as any` when the binary belongs to no known
tool, so the reference is modelled as an `Option String` (`none` = JS
`undefined`). -/
structure FallbackLocator where
  name : String
  reference : Option String
  deriving DecidableEq, Repr

/-- JS template-string interpolation of a possibly-undefined string value:
in `` `${locator.reference}` ``, `undefined` renders as "undefined". -/
def jsTemplate : Option String → String
  | none => "undefined"
  | some s => s

/-- One range entry of a package manager definition. The source record also
carries `bin` and url fields that no verified claim depends on; only the
registry pointer (opaque to the engine, handed to the fetch collaborators)
is retained. -/
structure PackageManagerSpec where
  registry : String
  deriving DecidableEq, Repr

/-- The `transparent` rules of a definition: binary+argument-prefix command
patterns, plus an optional override default version. -/
structure TransparentRules where
  commands : List (List String)
  dflt : Option String
  deriving DecidableEq, Repr

/-- The static per-tool definition (`config.json` entry): an ordered mapping
from range-key to range spec, a static default version, a registry pointer
for latest-stable lookups, and the transparent-command rules.
The source field `default` is spelled `dflt`. -/
structure PackageManagerDefinition where
  ranges : List (String × PackageManagerSpec)
  dflt : String
  fetchLatestFrom : String
  transparent : TransparentRules
  deriving DecidableEq, Repr

/-- The engine configuration: the definition table, keyed by tool name
(an ordered JS object, modelled as an association list). -/
structure Config where
  definitions : List (String × PackageManagerDefinition)
  deriving DecidableEq, Repr

/-- The `process.env` flags the engine reads (`none` = variable unset).
Field names abbreviate `COREPACK_ENABLE_UNSAFE_CUSTOM_URLS`,
`COREPACK_DEFAULT_TO_LATEST`, `COREPACK_ENABLE_PROJECT_SPEC`,
`COREPACK_ENABLE_STRICT` and `COREPACK_ENABLE_AUTO_PIN`. -/
structure ProcessEnv where
  enableUnsafeCustomUrls : Option String := none
  defaultToLatest : Option String := none
  enableProjectSpec : Option String := none
  enableStrict : Option String := none
  enableAutoPin : Option String := none
  deriving DecidableEq, Repr

/-- The semver library surface used by the engine (`semver/functions/valid`,
`semver/ranges/valid`, `semverUtils.satisfiesWithPrereleases`, and the
precedence comparison underlying `semver/functions/rcompare`), kept abstract:
the engine treats these as black boxes. -/
structure SemverApi where
  valid : String → Bool
  validRange : String → Bool
  satisfiesWithPrereleases : String → String → Bool
  semverCompare : String → String → Ordering

/-- True unless the ordering is `gt`. -/
def ordIsNotGt : Ordering → Bool
  | .gt => false
  | _ => true

/-- The ordering used by `highestVersion.sort(semverRcompare)`: JS sorts `a`
before `b` when `rcompare a b = compare b a ≤ 0`, i.e. when `a` is at least
`b` in semver precedence, yielding a descending sort. -/
def rcompareLe (sem : SemverApi) (a b : String) : Bool :=
  ordIsNotGt (sem.semverCompare b a)

/-- The typed error taxonomy of the engine (each source error is a
`UsageError` / `Error` with a message; the payloads retain what the message
names). `typeError` stands for a JS `TypeError` from an undefined access;
`fsError` for a filesystem failure surfaced by a collaborator. -/
inductive EngineError where
  | illegalCustomURL (name : String) (range : String)
  | unsupportedPackageManager (name : String)
  | tagsNotAllowed
  | tagNotFound (tag : String)
  | resolutionFailed (name : String) (range : String)
  | projectPackageManagerMismatch (name : String) (target : String)
  | assertionFailed (reference : String)
  | typeError
  | fsError
  deriving DecidableEq, Repr

/-- The cache/network operations `resolveDescriptor` can perform, recorded as
a trace. `findInstalled` is the local install-cache probe; `fetchTags` and
`fetchVersions` are the network calls. -/
inductive Effect where
  | findInstalled (descriptor : Descriptor)
  | fetchTags (registry : String)
  | fetchVersions (registry : String)
  deriving DecidableEq, Repr

/-- Responses of the fetch/cache collaborators consumed by
`resolveDescriptor` (`corepackUtils.findInstalledVersion`,
`corepackUtils.fetchAvailableVersions`, `corepackUtils.fetchAvailableTags`). -/
structure ResolveEnv where
  findInstalledVersion : Descriptor → Option String
  fetchAvailableVersions : String → List String
  fetchAvailableTags : String → List (String × String)

/-- Modelled from the spec: `corepackUtils.isSupportedPackageManagerDescriptor`
is not under `src/`; per the spec a descriptor is for a supported tool
exactly when its name is "one of the supported tools with a Definition". -/
def isSupportedPackageManagerDescriptor (cfg : Config) (descriptor : Descriptor) : Bool :=
  (cfg.definitions.lookup descriptor.name).isSome

/-- Modelled from the spec: `isSupportedPackageManagerLocator` from
`corepackUtils.ts` is not under `src/`; same criterion as for descriptors. -/
def isSupportedPackageManagerLocator (cfg : Config) (locator : Locator) : Bool :=
  (cfg.definitions.lookup locator.name).isSome

/-- Modelled from the spec: `isSupportedPackageManager` from `types.ts` is not
under `src/`; it tests membership in the fixed supported set of package
manager names. -/
def supportedPackageManagerSet : List String := ["npm", "pnpm", "yarn"]

/-- Modelled from the spec: membership test in the fixed supported set. -/
def isSupportedPackageManager (name : String) : Bool :=
  supportedPackageManagerSet.contains name

/-- Modelled from the spec: `corepackUtils.getRegistryFromPackageManagerSpec`
is not under `src/`; the registry descriptor is opaque to the core beyond
being taken from the range spec and passed to the fetch collaborator. -/
def getRegistryFromPackageManagerSpec (spec : PackageManagerSpec) : String :=
  spec.registry

/-- JS `[...new Set(xs)]`: deduplication preserving first occurrences. -/
def jsSetDedup (xs : List String) : List String :=
  xs.foldl (fun acc v => if acc.contains v then acc else acc ++ [v]) []

/-- Engine.resolveDescriptor (src/sources/Engine.ts:327-388): turns a
descriptor into a locator (or `null` when no version satisfies the range),
returning alongside the trace of cache/network operations performed. -/
def resolveDescriptor (cfg : Config) (pe : ProcessEnv) (sem : SemverApi)
    (renv : ResolveEnv) (descriptor : Descriptor)
    (allowTags : Bool := false) (useCache : Bool := true) :
    Except EngineError (Option Locator) × List Effect :=
  if ¬ isSupportedPackageManagerDescriptor cfg descriptor then
    if pe.enableUnsafeCustomUrls ≠ some "1" ∧ isSupportedPackageManager descriptor.name then
      (.error (.illegalCustomURL descriptor.name descriptor.range), [])
    else
      (.ok (some ⟨descriptor.name, descriptor.range⟩), [])
  else
    match cfg.definitions.lookup descriptor.name with
    | none => (.error (.unsupportedPackageManager descriptor.name), [])
    | some definition =>
      -- Tag resolution step (only from the last declared range-key's registry)
      let tagStep : Except EngineError Descriptor × List Effect :=
        if ¬ sem.valid descriptor.range ∧ ¬ sem.validRange descriptor.range then
          if ¬ allowTags then
            (.error .tagsNotAllowed, [])
          else
            match (definition.ranges.map Prod.fst).getLast? with
            | none => (.error .typeError, [])
            | some tagRange =>
              match definition.ranges.lookup tagRange with
              | none => (.error .typeError, [])
              | some packageManagerSpec =>
                let registry := getRegistryFromPackageManagerSpec packageManagerSpec
                let tags := renv.fetchAvailableTags registry
                match tags.lookup descriptor.range with
                | none => (.error (.tagNotFound descriptor.range), [.fetchTags registry])
                | some mapped =>
                  (.ok ⟨descriptor.name, mapped⟩, [.fetchTags registry])
        else
          (.ok descriptor, [])
      match tagStep with
      | (.error e, effs) => (.error e, effs)
      | (.ok finalDescriptor, effs) =>
        let effs := effs ++ [.findInstalled finalDescriptor]
        match renv.findInstalledVersion finalDescriptor, useCache with
        | some cachedVersion, true =>
          (.ok (some ⟨finalDescriptor.name, cachedVersion⟩), effs)
        | cached, uc =>
          -- mirror `cachedVersion !== null && useCache` being false
          let _ := cached
          let _ := uc
          if sem.valid finalDescriptor.range then
            (.ok (some ⟨finalDescriptor.name, finalDescriptor.range⟩), effs)
          else
            let fanout := definition.ranges.map fun p =>
              let registry := getRegistryFromPackageManagerSpec p.2
              (registry,
               (renv.fetchAvailableVersions registry).filter fun version =>
                 sem.satisfiesWithPrereleases version finalDescriptor.range)
            let effs := effs ++ fanout.map fun p => Effect.fetchVersions p.1
            let highestVersion :=
              (jsSetDedup (fanout.map Prod.snd).flatten).mergeSort (rcompareLe sem)
            match highestVersion with
            | [] => (.ok none, effs)
            | v :: _ => (.ok (some ⟨finalDescriptor.name, v⟩), effs)

/-! ## Last-Known-Good store (JSON file) -/

/-- A JSON value, as produced by `JSON.parse`. -/
inductive JVal where
  | null
  | bool (b : Bool)
  | num (n : Int)
  | str (s : String)
  | arr (xs : List JVal)
  | obj (fields : List (String × JVal))

/-- JS falsiness of a parsed JSON value (`if (!parsed) return {}`):
`null`, `false`, `0` and the empty string are falsy. -/
def jsFalsy : JVal → Bool
  | .null => true
  | .bool b => ¬ b
  | .num n => n == 0
  | .str s => s == ""
  | .arr _ => false
  | .obj _ => false

/-- JS `typeof` of a parsed JSON value (`typeof parsed !== "object"`):
`null`, arrays and objects all have typeof "object". -/
def jsTypeof : JVal → String
  | .null => "object"
  | .bool _ => "boolean"
  | .num _ => "number"
  | .str _ => "string"
  | .arr _ => "object"
  | .obj _ => "object"

/-- JS `Object.entries` of a parsed JSON value of typeof "object": object fields
in declaration order; array elements keyed by their stringified index. -/
def jsEntries : JVal → List (String × JVal)
  | .obj fields => fields
  | .arr xs => xs.enum.map fun p => (toString p.1, p.2)
  | _ => []

/-- The outcome of reading and parsing the `lastKnownGood.json` file:
the file is absent (`ENOENT`), the read fails otherwise, or the read yields
content whose `JSON.parse` result is `some` value or `none` (parse throws). -/
inductive LastKnownGoodRead where
  | enoent
  | readError
  | content (parsed : Option JVal)

/-- getLastKnownGood (src/sources/Engine.ts:34-58): load the Last-Known-Good
store. A missing file or unparseable/falsy/non-object content yields the
empty store; non-string values are dropped; any read error other than
`ENOENT` propagates. -/
def getLastKnownGood (read : LastKnownGoodRead) :
    Except EngineError (List (String × String)) :=
  match read with
  | .enoent => .ok []
  | .readError => .error .fsError
  | .content none => .ok []
  | .content (some parsed) =>
    if jsFalsy parsed then .ok []
    else if jsTypeof parsed ≠ "object" then .ok []
    else .ok ((jsEntries parsed).filterMap fun p =>
      match p.2 with
      | .str s => some (p.1, s)
      | _ => none)

/-- getLastKnownGoodFromFileContent (src/sources/Engine.ts:66-70):
`Object.hasOwn` guarded index, i.e. association-list lookup. -/
def getLastKnownGoodFromFileContent (lastKnownGood : List (String × String))
    (packageManager : String) : Option String :=
  lastKnownGood.lookup packageManager

/-- JS object property assignment `obj[k] = v`: overwrite in place (keeping
key order) when the key exists (JS object keys are unique, so the first
occurrence is the only one), else append. -/
def jsObjSet : List (String × String) → String → String → List (String × String)
  | [], k, v => [(k, v)]
  | p :: ps, k, v => if p.1 == k then (k, v) :: ps else p :: jsObjSet ps k v

/-- activatePackageManager (src/sources/Engine.ts:72-82): record a locator in
the Last-Known-Good store. If the stored value already equals the reference,
nothing happens; otherwise the entry is set and the whole store persisted via
`createLastKnownGoodFile` (whose success is modelled by `writeOk`; a failed
write raises). Returns the store contents together with whether a file write
happened. -/
def activatePackageManager (writeOk : Bool)
    (lastKnownGood : List (String × String)) (locator : Locator) :
    Except EngineError (List (String × String) × Bool) :=
  if lastKnownGood.lookup locator.name == some locator.reference then
    .ok (lastKnownGood, false)
  else
    let updated := jsObjSet lastKnownGood locator.name locator.reference
    if writeOk then .ok (updated, true) else .error .fsError

/-! ## Default version selection -/

/-- Responses of the collaborators consumed by `getDefaultVersion`: the
Last-Known-Good file read, `corepackUtils.fetchLatestStableVersion`, and
whether a store write would succeed. -/
structure DefaultVersionEnv where
  lkgRead : LastKnownGoodRead
  fetchLatestStableVersion : String → String
  writeOk : Bool

/-- Engine.getDefaultVersion (src/sources/Engine.ts:161-187): a truthy
Last-Known-Good entry wins; else the static default when
`COREPACK_DEFAULT_TO_LATEST=0`; else the freshly fetched latest stable
version, best-effort recorded as Last-Known-Good (the `try`/`catch` swallows
any failure of that write). -/
def getDefaultVersion (cfg : Config) (pe : ProcessEnv) (denv : DefaultVersionEnv)
    (packageManager : String) : Except EngineError String :=
  match cfg.definitions.lookup packageManager with
  | none => .error (.unsupportedPackageManager packageManager)
  | some definition =>
    match getLastKnownGood denv.lkgRead with
    | .error e => .error e
    | .ok lastKnownGood =>
      let rest : Except EngineError String :=
        if pe.defaultToLatest == some "0" then
          .ok definition.dflt
        else
          let reference := denv.fetchLatestStableVersion definition.fetchLatestFrom
          -- try { await activatePackageManager(...) } catch { /* ignored */ }
          let _ := activatePackageManager denv.writeOk lastKnownGood
            ⟨packageManager, reference⟩
          .ok reference
      match getLastKnownGoodFromFileContent lastKnownGood packageManager with
      | some v => if v ≠ "" then .ok v else rest
      | none => rest

/-! ## Range-spec lookup and installation -/

/-- Engine.getPackageManagerSpecFor (src/sources/Engine.ts:107-134): find the
range spec governing an already-resolved locator. Custom (URL) locators get a
synthesized spec from the literal reference; supported locators scan declared
range-keys in reverse order for the first range the reference satisfies. -/
def getPackageManagerSpecFor (cfg : Config) (sem : SemverApi) (locator : Locator) :
    Except EngineError PackageManagerSpec :=
  if ¬ isSupportedPackageManagerLocator cfg locator then
    .ok { registry := locator.reference }
  else
    match cfg.definitions.lookup locator.name with
    | none => .error (.unsupportedPackageManager locator.name)
    | some definition =>
      let ranges := (definition.ranges.map Prod.fst).reverse
      match ranges.find? fun range =>
          sem.satisfiesWithPrereleases locator.reference range with
      | none => .error (.assertionFailed locator.reference)
      | some range =>
        match definition.ranges.lookup range with
        | none => .error .typeError
        | some spec => .ok spec

/-- The install collaborator (`corepackUtils.installVersion`), returning the
verified content hash (or failing). -/
structure InstallEnv where
  installVersion : Locator → PackageManagerSpec → Except EngineError String

/-- The value `ensurePackageManager` produces: install info (hash), the
hash-corrected locator, and the governing spec. -/
structure EnsureResult where
  hash : String
  locator : Locator
  spec : PackageManagerSpec
  deriving DecidableEq, Repr

/-- JS `reference.replace(/\+.*/, "")`: strip an existing `+hash` suffix
(everything from the first `+` on). -/
def stripHashSuffix (reference : String) : String :=
  ⟨reference.data.takeWhile fun c => c ≠ '+'⟩

/-- Engine.ensurePackageManager (src/sources/Engine.ts:194-214): look up the
spec, install, and re-append the freshly verified hash to the reference. -/
def ensurePackageManager (cfg : Config) (sem : SemverApi) (ienv : InstallEnv)
    (locator : Locator) : Except EngineError EnsureResult := do
  let spec ← getPackageManagerSpecFor cfg sem locator
  let hash ← ienv.installVersion locator spec
  let noHashReference := stripHashSuffix locator.reference
  let fixedHashReference := noHashReference ++ "+" ++ hash
  return { hash := hash, locator := ⟨locator.name, fixedHashReference⟩, spec := spec }

/-! ## Project spec discovery -/

/-- The three outcomes of the external project-spec loader
(`specUtils.loadSpec`). -/
inductive LoadSpecResult where
  | NoProject
  | NoSpec (target : String)
  | Found (target : String) (spec : Descriptor)
  deriving DecidableEq, Repr

/-- Node `path.dirname`, simplified to stripping the last `/`-separated
segment (the pin-write path; no verified claim depends on its exact value). -/
def jsDirname (p : String) : String :=
  match p.splitOn "/" with
  | [_] => "."
  | parts =>
    let init := parts.dropLast
    if init.all fun s => s = "" then "/" else String.intercalate "/" init

/-- The collaborators consumed by `findProjectSpec`: the loader outcome and
the pin writer (`specUtils.setLocalPackageManager`), which may fail. -/
structure ProjectEnv where
  loadSpec : LoadSpecResult
  setLocalPackageManager : String → EnsureResult → Except EngineError Unit

/-- Engine.findProjectSpec (src/sources/Engine.ts:232-280): reconcile the
project's declared pin with the fallback locator. The source's
`while (true)` loop returns on every branch of its single iteration and is
embedded as straight-line code. -/
def findProjectSpec (cfg : Config) (pe : ProcessEnv) (sem : SemverApi)
    (renv : ResolveEnv) (ienv : InstallEnv) (penv : ProjectEnv)
    (locator : FallbackLocator) (transparent : Bool := false) :
    Except EngineError Descriptor :=
  let fallbackDescriptor : Descriptor := ⟨locator.name, jsTemplate locator.reference⟩
  if pe.enableProjectSpec == some "0" then
    .ok fallbackDescriptor
  else
    let transparent := if pe.enableStrict == some "0" then true else transparent
    match penv.loadSpec with
    | .NoProject => .ok fallbackDescriptor
    | .NoSpec target =>
      if pe.enableAutoPin == some "0" then
        .ok fallbackDescriptor
      else
        -- auto-pin: resolve the fallback, install it, write the pin; any
        -- failure here propagates (there is no try/catch in this branch)
        match resolveDescriptor cfg pe sem renv fallbackDescriptor true true with
        | (.error e, _) => .error e
        | (.ok none, _) =>
          .error (.resolutionFailed fallbackDescriptor.name fallbackDescriptor.range)
        | (.ok (some resolved), _) =>
          match ensurePackageManager cfg sem ienv resolved with
          | .error e => .error e
          | .ok installSpec =>
            match penv.setLocalPackageManager (jsDirname target) installSpec with
            | .error e => .error e
            | .ok _ => .ok fallbackDescriptor
    | .Found target spec =>
      if spec.name ≠ locator.name then
        if transparent then .ok fallbackDescriptor
        else .error (.projectPackageManagerMismatch spec.name target)
      else
        .ok spec

/-! ## Request dispatch (fallback locator and final descriptor) -/

/-- Engine.executePackageManagerRequest (src/sources/Engine.ts:282-316), up to
the descriptor handed to `resolveDescriptor`: build the provisional fallback
locator (reference `undefined` when the binary belongs to no known tool),
compute default version and transparent-command status, consult
`findProjectSpec`, and apply the explicit `binaryVersion` override. Returns
the fallback locator together with the descriptor resolution receives. -/
def executePackageManagerRequestDescriptor (cfg : Config) (pe : ProcessEnv)
    (sem : SemverApi) (renv : ResolveEnv) (ienv : InstallEnv) (penv : ProjectEnv)
    (denv : DefaultVersionEnv) (packageManager : Option String)
    (binaryName : String) (binaryVersion : Option String) (args : List String) :
    Except EngineError (FallbackLocator × Descriptor) :=
  let fallbackLocator0 : FallbackLocator := { name := binaryName, reference := none }
  let prepared : Except EngineError (FallbackLocator × Bool) :=
    match packageManager with
    | none => .ok (fallbackLocator0, false)
    | some pm =>
      let defaultVersionE : Except EngineError String :=
        match binaryVersion with
        | some v => if v ≠ "" then .ok v else getDefaultVersion cfg pe denv pm
        | none => getDefaultVersion cfg pe denv pm
      match defaultVersionE with
      | .error e => .error e
      | .ok defaultVersion =>
        match cfg.definitions.lookup pm with
        | none => .error .typeError
        | some definition =>
          let isTransparentCommand := definition.transparent.commands.any
            fun transparentPath =>
              match transparentPath with
              | [] => false
              | head :: restPath =>
                head == binaryName ∧
                  restPath.enum.all fun p => args.get? p.1 == some p.2
          let fallbackReference :=
            if isTransparentCommand then
              definition.transparent.dflt.getD defaultVersion
            else defaultVersion
          .ok ({ name := pm, reference := some fallbackReference }, isTransparentCommand)
  match prepared with
  | .error e => .error e
  | .ok (fallbackLocator, isTransparentCommand) =>
    match findProjectSpec cfg pe sem renv ienv penv fallbackLocator isTransparentCommand with
    | .error e => .error e
    | .ok descriptor =>
      let descriptor :=
        match binaryVersion with
        | some v => if v ≠ "" then { descriptor with range := v } else descriptor
        | none => descriptor
      .ok (fallbackLocator, descriptor)

/-! ## A concrete semver instance for witnesses

A finite, table-driven instantiation of the abstract `SemverApi` surface,
consistent with node-semver on the versions and ranges appearing in the
concrete examples. The claims themselves are proved against the abstract
interface; witnesses only need one concrete collaborator behavior. -/

/-- The exact versions known to the demo instance. -/
def demoVersions : List String := ["1.0.0", "1.21.0", "1.22.19", "2.0.0"]

/-- The range expressions known to the demo instance (an exact version is
also a valid range expression). -/
def demoRanges : List String :=
  ["^1.0.0", "1.x", ">=2.0.0", ">=0.0.0", "1.0.0", "1.21.0", "1.22.19", "2.0.0"]

/-- Range satisfaction for the demo instance, matching node-semver on the
listed versions and ranges. -/
def demoSatisfies (version range : String) : Bool :=
  match range with
  | "^1.0.0" => version == "1.0.0" || version == "1.21.0" || version == "1.22.19"
  | "1.x" => version == "1.0.0" || version == "1.21.0" || version == "1.22.19"
  | ">=2.0.0" => version == "2.0.0"
  | ">=0.0.0" => demoVersions.contains version
  | "1.0.0" => version == "1.0.0"
  | "1.21.0" => version == "1.21.0"
  | "1.22.19" => version == "1.22.19"
  | "2.0.0" => version == "2.0.0"
  | _ => false

/-- Semver precedence rank of the demo versions (higher rank = higher
precedence; unknown strings rank lowest). -/
def demoRank (s : String) : Nat :=
  match s with
  | "1.0.0" => 1
  | "1.21.0" => 2
  | "1.22.19" => 3
  | "2.0.0" => 4
  | _ => 0

/-- Precedence comparison for the demo instance: a total preorder obtained by
comparing ranks. -/
def demoCompare (a b : String) : Ordering :=
  compare (demoRank a) (demoRank b)

/-- The demo instantiation of the abstract semver surface. -/
def semverDemo : SemverApi where
  valid := fun s => demoVersions.contains s
  validRange := fun s => demoRanges.contains s
  satisfiesWithPrereleases := demoSatisfies
  semverCompare := demoCompare

theorem ordIsNotGt_iff (o : Ordering) : ordIsNotGt o = true ↔ o ≠ .gt := by
  cases o <;> simp [ordIsNotGt]

theorem demoRcompareLe_total (a b : String) :
    rcompareLe semverDemo a b = true ∨ rcompareLe semverDemo b a = true := by
  unfold rcompareLe
  rw [ordIsNotGt_iff, ordIsNotGt_iff]
  show demoCompare b a ≠ .gt ∨ demoCompare a b ≠ .gt
  unfold demoCompare
  rw [ne_eq, ne_eq, Nat.compare_eq_gt, Nat.compare_eq_gt]
  omega

theorem demoRcompareLe_trans (a b c : String)
    (hab : rcompareLe semverDemo a b = true) (hbc : rcompareLe semverDemo b c = true) :
    rcompareLe semverDemo a c = true := by
  unfold rcompareLe at *
  rw [ordIsNotGt_iff] at *
  revert hab hbc
  show demoCompare b a ≠ .gt → demoCompare c b ≠ .gt → demoCompare c a ≠ .gt
  unfold demoCompare
  rw [ne_eq, ne_eq, ne_eq, Nat.compare_eq_gt, Nat.compare_eq_gt, Nat.compare_eq_gt]
  omega

/-! ## Helper lemmas -/

theorem mem_jsSetDedup_aux (xs : List String) :
    ∀ (acc : List String) (a : String),
      (a ∈ xs.foldl (fun acc v => if acc.contains v then acc else acc ++ [v]) acc ↔
        a ∈ acc ∨ a ∈ xs) := by
  induction xs with
  | nil => intro acc a; simp
  | cons x xs ih =>
    intro acc a
    simp only [List.foldl_cons]
    by_cases hx : acc.contains x
    · rw [if_pos hx, ih acc a]
      have hmem : x ∈ acc := by
        simpa using hx
      simp only [List.mem_cons]
      constructor
      · rintro (h | h)
        · exact Or.inl h
        · exact Or.inr (Or.inr h)
      · rintro (h | rfl | h)
        · exact Or.inl h
        · exact Or.inl hmem
        · exact Or.inr h
    · rw [if_neg hx, ih (acc ++ [x]) a]
      simp only [List.mem_append, List.mem_singleton, List.mem_cons]
      tauto

theorem mem_jsSetDedup (xs : List String) (a : String) :
    a ∈ jsSetDedup xs ↔ a ∈ xs := by
  unfold jsSetDedup
  rw [mem_jsSetDedup_aux]
  simp

/-- After a JS object assignment, looking the key up yields the new value. -/
theorem jsObjSet_lookup (store : List (String × String)) (k v : String) :
    (jsObjSet store k v).lookup k = some v := by
  induction store with
  | nil => simp [jsObjSet, List.lookup]
  | cons p ps ih =>
    unfold jsObjSet
    by_cases hpk : p.1 == k
    · rw [if_pos hpk]
      simp [List.lookup]
    · rw [if_neg hpk]
      have hk : (k == p.1) = false := by
        simp only [beq_eq_false_iff_ne, ne_eq]
        intro heq
        exact hpk (by simp [heq])
      simp [List.lookup, hk, ih]

/-- The head of a mergeSort with a transitive, total comparison is a maximum
of the input list (least in the `le` order used, which here is the
descending semver order). -/
theorem mergeSort_head_le (le : String → String → Bool)
    (htrans : ∀ a b c, le a b = true → le b c = true → le a c = true)
    (htotal : ∀ a b, le a b = true ∨ le b a = true)
    (xs : List String) (v : String) (rest : List String)
    (h : xs.mergeSort le = v :: rest) :
    v ∈ xs ∧ ∀ w ∈ xs, le v w = true := by
  have hmem : v ∈ xs := by
    rw [← @List.mem_mergeSort _ le v xs, h]
    exact List.mem_cons_self _ _
  refine ⟨hmem, fun w hw => ?_⟩
  rw [← @List.mem_mergeSort _ le w xs, h] at hw
  rcases List.mem_cons.mp hw with heq | hw'
  · subst heq
    rcases htotal w w with hv | hv <;> exact hv
  · have hs := List.sorted_mergeSort htrans
      (fun a b => by rcases htotal a b with h' | h' <;> simp [h']) xs
    rw [h] at hs
    exact (List.pairwise_cons.mp hs).1 w hw'

/-- The supported path of `resolveDescriptor` when the (possibly
tag-resolved) range is a valid exact version: the only effect is the cache
probe, and the result is the cached version on a usable hit, else the
range itself. -/
theorem resolveDescriptor_exact (cfg : Config) (pe : ProcessEnv) (sem : SemverApi)
    (renv : ResolveEnv) (d : Descriptor) (allowTags useCache : Bool)
    (definition : PackageManagerDefinition)
    (hdef : cfg.definitions.lookup d.name = some definition)
    (hvalid : sem.valid d.range = true) :
    resolveDescriptor cfg pe sem renv d allowTags useCache =
      (.ok (some ⟨d.name,
        match renv.findInstalledVersion d, useCache with
        | some cachedVersion, true => cachedVersion
        | _, _ => d.range⟩), [.findInstalled d]) := by
  unfold resolveDescriptor
  have hsup : isSupportedPackageManagerDescriptor cfg d = true := by
    simp [isSupportedPackageManagerDescriptor, hdef]
  rw [hsup, hdef]
  simp only [hvalid, not_true, false_and, if_neg (by simp : ¬ (¬ True))]
  rcases hc : renv.findInstalledVersion d with _ | cachedVersion <;> cases useCache <;>
    simp [hvalid, hc]

/-- The deduplicated union of the per-range-key filtered version lists
computed by the fan-out step of `resolveDescriptor`
(src/sources/Engine.ts:375-383). -/
def rangeUnion (sem : SemverApi) (renv : ResolveEnv)
    (definition : PackageManagerDefinition) (range : String) : List String :=
  jsSetDedup ((definition.ranges.map fun p =>
    (renv.fetchAvailableVersions (getRegistryFromPackageManagerSpec p.2)).filter
      fun version => sem.satisfiesWithPrereleases version range)).flatten

/-! ## Demo fixtures used by witnesses and counterexamples -/

/-- An everything-unset process environment. -/
def demoProcessEnv : ProcessEnv := {}

/-- The definition of the spec's example tool `T`:
range-keys `1.x` (registry regA) and `>=2.0.0` (registry regB). -/
def demoTDefinition : PackageManagerDefinition where
  ranges := [("1.x", ⟨"regA"⟩), (">=2.0.0", ⟨"regB"⟩)]
  dflt := "1.0.0"
  fetchLatestFrom := "regB"
  transparent := { commands := [], dflt := none }

/-- A configuration with the single tool `T`. -/
def demoTConfig : Config := ⟨[("T", demoTDefinition)]⟩

/-- Registry responses for the example: regA reports 1.21.0 and 1.22.19,
regB reports 2.0.0; the install cache is empty; no tags. -/
def demoTResolveEnv : ResolveEnv where
  findInstalledVersion := fun _ => none
  fetchAvailableVersions := fun r =>
    if r = "regA" then ["1.21.0", "1.22.19"]
    else if r = "regB" then ["2.0.0"]
    else []
  fetchAvailableTags := fun _ => []

/-- The same registries, with a tag map `latest ↦ 2.0.0` on regB. -/
def demoTagResolveEnv : ResolveEnv where
  findInstalledVersion := fun _ => none
  fetchAvailableVersions := fun r =>
    if r = "regA" then ["1.21.0", "1.22.19"]
    else if r = "regB" then ["2.0.0"]
    else []
  fetchAvailableTags := fun r =>
    if r = "regB" then [("latest", "2.0.0")] else []

/-! ## Claims -/

/-- C1: for a supported-tool descriptor whose working range is a valid
non-exact range expression and with no install-cache hit, resolveDescriptor
fetches each declared range-key's registry version list, filters each list by
prerelease-inclusive satisfaction of the working range, dedups the union of
the filtered lists, and returns the locator with the highest version by
semver precedence (the comparison hypotheses state that the semver precedence
order is transitive and total); if the union is empty it returns null. -/
theorem C1_range_union_highest (cfg : Config) (pe : ProcessEnv) (sem : SemverApi)
    (renv : ResolveEnv) (d : Descriptor) (allowTags useCache : Bool)
    (definition : PackageManagerDefinition)
    (hdef : cfg.definitions.lookup d.name = some definition)
    (hrange : sem.validRange d.range = true)
    (hnotexact : sem.valid d.range = false)
    (hnocache : renv.findInstalledVersion d = none)
    (htrans : ∀ a b c, rcompareLe sem a b = true → rcompareLe sem b c = true →
      rcompareLe sem a c = true)
    (htotal : ∀ a b, rcompareLe sem a b = true ∨ rcompareLe sem b a = true) :
    ∃ r,
      resolveDescriptor cfg pe sem renv d allowTags useCache =
        (.ok r,
          .findInstalled d ::
            (definition.ranges.map fun p =>
              .fetchVersions (getRegistryFromPackageManagerSpec p.2))) ∧
      (r = none ↔ rangeUnion sem renv definition d.range = []) ∧
      ∀ loc, r = some loc → loc.name = d.name ∧
        loc.reference ∈ rangeUnion sem renv definition d.range ∧
        ∀ w ∈ rangeUnion sem renv definition d.range,
          rcompareLe sem loc.reference w = true := by
  have hsup : isSupportedPackageManagerDescriptor cfg d = true := by
    simp [isSupportedPackageManagerDescriptor, hdef]
  have hstep : resolveDescriptor cfg pe sem renv d allowTags useCache =
      (match (rangeUnion sem renv definition d.range).mergeSort (rcompareLe sem) with
       | [] => (.ok none,
          .findInstalled d ::
            (definition.ranges.map fun p =>
              .fetchVersions (getRegistryFromPackageManagerSpec p.2)))
       | v :: _ => (.ok (some ⟨d.name, v⟩),
          .findInstalled d ::
            (definition.ranges.map fun p =>
              .fetchVersions (getRegistryFromPackageManagerSpec p.2)))) := by
    unfold resolveDescriptor rangeUnion
    rw [hsup, hdef]
    simp only [hrange, hnotexact, hnocache, Bool.false_eq_true, not_false_eq_true,
      Bool.true_eq_false, not_true_eq_false, and_false, if_false, List.map_map,
      List.nil_append, List.singleton_append, if_neg]
    rfl
  rcases hsort : (rangeUnion sem renv definition d.range).mergeSort (rcompareLe sem) with
    _ | ⟨v, rest⟩
  · refine ⟨none, ?_, ?_, ?_⟩
    · rw [hstep, hsort]
    · have := List.mergeSort_perm (rangeUnion sem renv definition d.range) (rcompareLe sem)
      rw [hsort] at this
      simp only [true_iff]
      exact (List.Perm.nil_eq this).symm
    · intro loc hloc; cases hloc
  · obtain ⟨hmem, hmax⟩ := mergeSort_head_le (rcompareLe sem) htrans htotal _ v rest hsort
    refine ⟨some ⟨d.name, v⟩, ?_, ?_, ?_⟩
    · rw [hstep, hsort]
    · constructor
      · intro hc; cases hc
      · intro hempty
        rw [hempty] at hsort
        simp [List.mergeSort] at hsort
    · intro loc hloc
      cases hloc
      exact ⟨rfl, hmem, hmax⟩

/-- C1 witness: the spec's worked example. Tool `T` declares range-keys
`1.x` (registry regA: 1.21.0, 1.22.19) and `>=2.0.0` (registry regB: 2.0.0);
resolving `^1.0.0` with an empty cache yields reference 1.22.19. -/
theorem C1_witness :
    (demoTConfig.definitions.lookup "T" = some demoTDefinition ∧
     semverDemo.validRange "^1.0.0" = true ∧
     semverDemo.valid "^1.0.0" = false ∧
     demoTResolveEnv.findInstalledVersion ⟨"T", "^1.0.0"⟩ = none) ∧
    rangeUnion semverDemo demoTResolveEnv demoTDefinition "^1.0.0" =
      ["1.21.0", "1.22.19"] ∧
    (resolveDescriptor demoTConfig demoProcessEnv semverDemo demoTResolveEnv
        ⟨"T", "^1.0.0"⟩ true true).1 =
      .ok (some ⟨"T", "1.22.19"⟩) := by
  obtain ⟨r, heq, hiff, hsome⟩ :=
    C1_range_union_highest demoTConfig demoProcessEnv semverDemo demoTResolveEnv
      ⟨"T", "^1.0.0"⟩ true true demoTDefinition (by decide) (by decide) (by decide)
      (by decide) demoRcompareLe_trans demoRcompareLe_total
  have hunion : rangeUnion semverDemo demoTResolveEnv demoTDefinition "^1.0.0" =
      ["1.21.0", "1.22.19"] := by decide
  refine ⟨⟨by decide, by decide, by decide, by decide⟩, hunion, ?_⟩
  rcases r with _ | loc
  · exact absurd (hunion.symm.trans (hiff.mp rfl)) (by decide)
  · obtain ⟨hname, hmem, hmax⟩ := hsome loc rfl
    rw [hunion] at hmem hmax
    simp only [List.mem_cons, List.not_mem_nil, or_false] at hmem
    have href : loc.reference = "1.22.19" := by
      rcases hmem with h1 | h1
      · exfalso
        have h2 := hmax "1.22.19" (by decide)
        rw [h1] at h2
        exact absurd h2 (by decide)
      · exact h1
    rw [heq]
    cases loc
    simp only at hname href
    subst hname
    subst href
    rfl

/-- C2: for a supported tool and a valid exact-version range,
resolveDescriptor returns a locator with that version unchanged and performs
no network call: the only recorded effect is the local install-cache probe.
The cache hypothesis is the collaborator contract of
`corepackUtils.findInstalledVersion` specialized to an exact range: a hit
for an exact version is that version. -/
theorem C2_exact_no_network (cfg : Config) (pe : ProcessEnv) (sem : SemverApi)
    (renv : ResolveEnv) (d : Descriptor) (allowTags useCache : Bool)
    (definition : PackageManagerDefinition)
    (hdef : cfg.definitions.lookup d.name = some definition)
    (hvalid : sem.valid d.range = true)
    (hcache : renv.findInstalledVersion d = none ∨
              renv.findInstalledVersion d = some d.range) :
    resolveDescriptor cfg pe sem renv d allowTags useCache =
      (.ok (some ⟨d.name, d.range⟩), [.findInstalled d]) ∧
    ∀ e ∈ (resolveDescriptor cfg pe sem renv d allowTags useCache).2,
      ∀ registry, e ≠ .fetchTags registry ∧ e ≠ .fetchVersions registry := by
  have h := resolveDescriptor_exact cfg pe sem renv d allowTags useCache definition hdef hvalid
  have h' : resolveDescriptor cfg pe sem renv d allowTags useCache =
      (.ok (some ⟨d.name, d.range⟩), [.findInstalled d]) := by
    rcases hcache with hc | hc
    · rw [h, hc]
    · rw [h, hc]; cases useCache <;> rfl
  refine ⟨h', ?_⟩
  rw [h']
  intro e he registry
  simp only [List.mem_singleton] at he
  subst he
  exact ⟨by simp, by simp⟩

/-- C2 witness: resolving the exact version 2.0.0 of tool T with an empty
cache returns 2.0.0 with only the cache probe as effect. -/
theorem C2_witness :
    (demoTConfig.definitions.lookup "T" = some demoTDefinition ∧
     semverDemo.valid "2.0.0" = true ∧
     demoTResolveEnv.findInstalledVersion ⟨"T", "2.0.0"⟩ = none) ∧
    resolveDescriptor demoTConfig demoProcessEnv semverDemo demoTResolveEnv
        ⟨"T", "2.0.0"⟩ false true =
      (.ok (some ⟨"T", "2.0.0"⟩), [.findInstalled ⟨"T", "2.0.0"⟩]) :=
  ⟨⟨by decide, by decide, by decide⟩,
   (C2_exact_no_network demoTConfig demoProcessEnv semverDemo demoTResolveEnv
     ⟨"T", "2.0.0"⟩ false true demoTDefinition (by decide) (by decide)
     (Or.inl (by decide))).1⟩

/-- C3: dist-tag resolution. For a supported-tool descriptor whose range is
neither a valid exact version nor a valid range expression: with allowTags
false resolution fails with TagsNotAllowed before any effect; with allowTags
true the tag map is fetched from only the last declared range-key's registry,
resolution fails with TagNotFound exactly when the tag is absent from that
map, and a known tag (whose mapped value is an exact version, per the
registry collaborator contract) resolves exactly as the mapped exact version
does, after the single tag fetch. -/
theorem C3_tag_resolution (cfg : Config) (pe : ProcessEnv) (sem : SemverApi)
    (renv : ResolveEnv) (d : Descriptor) (useCache : Bool)
    (definition : PackageManagerDefinition)
    (tagKey : String) (packageManagerSpec : PackageManagerSpec)
    (hdef : cfg.definitions.lookup d.name = some definition)
    (hnotvalid : sem.valid d.range = false)
    (hnotrange : sem.validRange d.range = false)
    (hlast : (definition.ranges.map Prod.fst).getLast? = some tagKey)
    (hspec : definition.ranges.lookup tagKey = some packageManagerSpec) :
    resolveDescriptor cfg pe sem renv d false useCache =
      (.error .tagsNotAllowed, []) ∧
    ((renv.fetchAvailableTags
        (getRegistryFromPackageManagerSpec packageManagerSpec)).lookup d.range = none →
      resolveDescriptor cfg pe sem renv d true useCache =
        (.error (.tagNotFound d.range),
         [.fetchTags (getRegistryFromPackageManagerSpec packageManagerSpec)])) ∧
    ∀ mapped,
      (renv.fetchAvailableTags
        (getRegistryFromPackageManagerSpec packageManagerSpec)).lookup d.range =
          some mapped →
      sem.valid mapped = true →
      resolveDescriptor cfg pe sem renv d true useCache =
        ((resolveDescriptor cfg pe sem renv ⟨d.name, mapped⟩ true useCache).1,
         .fetchTags (getRegistryFromPackageManagerSpec packageManagerSpec) ::
           (resolveDescriptor cfg pe sem renv ⟨d.name, mapped⟩ true useCache).2) := by
  have hsup : isSupportedPackageManagerDescriptor cfg d = true := by
    simp [isSupportedPackageManagerDescriptor, hdef]
  refine ⟨?_, ?_, ?_⟩
  · unfold resolveDescriptor
    rw [hsup, hdef]
    simp [hnotvalid, hnotrange]
  · intro hnone
    unfold resolveDescriptor
    rw [hsup, hdef]
    simp [hnotvalid, hnotrange, hlast, hspec, hnone]
  · intro mapped hfound hmv
    have hR := resolveDescriptor_exact cfg pe sem renv ⟨d.name, mapped⟩ true useCache
      definition hdef hmv
    rw [hR]
    unfold resolveDescriptor
    rw [hsup, hdef]
    simp only [hnotvalid, hnotrange, hlast, hspec, hfound, hmv, Bool.false_eq_true,
      not_false_eq_true, and_self, if_true, not_true_eq_false, if_false,
      Bool.true_eq_false, ite_true, ite_false, List.nil_append, List.singleton_append]
    rcases renv.findInstalledVersion ⟨d.name, mapped⟩ with _ | cv <;> cases useCache <;>
      simp [hmv, hlast, hspec, hfound]

/-- C3 witness: with tool T (last declared range-key `>=2.0.0`, registry
regB) and tag map `latest ↦ 2.0.0` on regB: a tag with allowTags false fails
TagsNotAllowed; the unknown tag nightly fails TagNotFound after fetching only
regB's tags; the known tag latest resolves exactly as the mapped exact
version 2.0.0 does, after the regB tag fetch. -/
theorem C3_witness :
    (demoTConfig.definitions.lookup "T" = some demoTDefinition ∧
     semverDemo.valid "latest" = false ∧
     semverDemo.validRange "latest" = false ∧
     (demoTDefinition.ranges.map Prod.fst).getLast? = some ">=2.0.0" ∧
     demoTDefinition.ranges.lookup ">=2.0.0" = some ⟨"regB"⟩) ∧
    resolveDescriptor demoTConfig demoProcessEnv semverDemo demoTagResolveEnv
        ⟨"T", "latest"⟩ false true = (.error .tagsNotAllowed, []) ∧
    resolveDescriptor demoTConfig demoProcessEnv semverDemo demoTagResolveEnv
        ⟨"T", "nightly"⟩ true true =
      (.error (.tagNotFound "nightly"), [.fetchTags "regB"]) ∧
    resolveDescriptor demoTConfig demoProcessEnv semverDemo demoTagResolveEnv
        ⟨"T", "latest"⟩ true true =
      ((resolveDescriptor demoTConfig demoProcessEnv semverDemo demoTagResolveEnv
          ⟨"T", "2.0.0"⟩ true true).1,
       .fetchTags "regB" ::
         (resolveDescriptor demoTConfig demoProcessEnv semverDemo demoTagResolveEnv
           ⟨"T", "2.0.0"⟩ true true).2) := by
  obtain ⟨h1, _, h3⟩ := C3_tag_resolution demoTConfig demoProcessEnv semverDemo
    demoTagResolveEnv ⟨"T", "latest"⟩ true demoTDefinition ">=2.0.0" ⟨"regB"⟩
    (by decide) (by decide) (by decide) (by decide) (by decide)
  obtain ⟨_, h2, _⟩ := C3_tag_resolution demoTConfig demoProcessEnv semverDemo
    demoTagResolveEnv ⟨"T", "nightly"⟩ true demoTDefinition ">=2.0.0" ⟨"regB"⟩
    (by decide) (by decide) (by decide) (by decide) (by decide)
  exact ⟨⟨by decide, by decide, by decide, by decide, by decide⟩, h1,
    h2 (by decide), h3 "2.0.0" (by decide) (by decide)⟩

/-- C4: for a descriptor whose name has no Definition (a custom tool):
without the unsafe-custom-URL override, a name that is a known supported
package manager fails with IllegalCustomURL; otherwise the literal range is
returned as the reference, with an empty effect trace (no network or cache
lookup). -/
theorem C4_custom_tool (cfg : Config) (pe : ProcessEnv) (sem : SemverApi)
    (renv : ResolveEnv) (d : Descriptor) (allowTags useCache : Bool)
    (hcustom : cfg.definitions.lookup d.name = none) :
    (pe.enableUnsafeCustomUrls ≠ some "1" → isSupportedPackageManager d.name = true →
       resolveDescriptor cfg pe sem renv d allowTags useCache =
         (.error (.illegalCustomURL d.name d.range), [])) ∧
    (pe.enableUnsafeCustomUrls = some "1" ∨ isSupportedPackageManager d.name = false →
       resolveDescriptor cfg pe sem renv d allowTags useCache =
         (.ok (some ⟨d.name, d.range⟩), [])) := by
  have hsup : isSupportedPackageManagerDescriptor cfg d = false := by
    simp [isSupportedPackageManagerDescriptor, hcustom]
  constructor
  · intro h1 h2
    unfold resolveDescriptor
    rw [hsup]
    simp [h1, h2]
  · intro h12
    unfold resolveDescriptor
    rw [hsup]
    rcases h12 with h | h
    · simp [h]
    · simp [h]

/-- C4 witness: the name yarn is a known supported package manager but has no
Definition in the demo config; a URL range without the unsafe override fails
with IllegalCustomURL. -/
theorem C4_witness :
    (demoTConfig.definitions.lookup "yarn" = none ∧
     isSupportedPackageManager "yarn" = true ∧
     demoProcessEnv.enableUnsafeCustomUrls ≠ some "1") ∧
    resolveDescriptor demoTConfig demoProcessEnv semverDemo demoTResolveEnv
        ⟨"yarn", "https://example.com/yarn.tgz"⟩ false true =
      (.error (.illegalCustomURL "yarn" "https://example.com/yarn.tgz"), []) :=
  ⟨⟨by decide, by decide, by decide⟩,
   (C4_custom_tool demoTConfig demoProcessEnv semverDemo demoTResolveEnv
     ⟨"yarn", "https://example.com/yarn.tgz"⟩ false true (by decide)).1
     (by decide) (by decide)⟩

/-- An install collaborator that always succeeds with a fixed hash. -/
def demoOkInstallEnv : InstallEnv where
  installVersion := fun _ _ => .ok "cafebabe"

/-- A project whose declaration file pins pnpm 8.6.0. -/
def demoFoundProjectEnv : ProjectEnv where
  loadSpec := .Found "/proj/package.json" ⟨"pnpm", "8.6.0"⟩
  setLocalPackageManager := fun _ _ => .ok ()

/-- A project with a boundary but no pin, whose pin write fails. -/
def demoFailingPinProjectEnv : ProjectEnv where
  loadSpec := .NoSpec "/proj/package.json"
  setLocalPackageManager := fun _ _ => .error .fsError

/-- No project boundary above the working directory. -/
def demoNoProjectEnv : ProjectEnv where
  loadSpec := .NoProject
  setLocalPackageManager := fun _ _ => .ok ()

/-- No Last-Known-Good file; latest stable is 2.0.0; writes succeed. -/
def demoDefaultVersionEnv : DefaultVersionEnv where
  lkgRead := .enoent
  fetchLatestStableVersion := fun _ => "2.0.0"
  writeOk := true

/-- C5: findProjectSpec on a Found pin (with project-spec lookup enabled): a
name mismatch returns the fallback descriptor in transparent mode (via the
transparent flag or COREPACK_ENABLE_STRICT=0) and otherwise fails with
ProjectPackageManagerMismatch naming the project file; matching names return
the project's own descriptor verbatim, its range untouched. -/
theorem C5_found_pin (cfg : Config) (pe : ProcessEnv) (sem : SemverApi)
    (renv : ResolveEnv) (ienv : InstallEnv) (penv : ProjectEnv)
    (locator : FallbackLocator) (transparent : Bool)
    (target : String) (spec : Descriptor)
    (hfound : penv.loadSpec = .Found target spec)
    (hps : pe.enableProjectSpec ≠ some "0") :
    (spec.name ≠ locator.name →
      ((transparent = true ∨ pe.enableStrict = some "0") →
        findProjectSpec cfg pe sem renv ienv penv locator transparent =
          .ok ⟨locator.name, jsTemplate locator.reference⟩) ∧
      (transparent = false → pe.enableStrict ≠ some "0" →
        findProjectSpec cfg pe sem renv ienv penv locator transparent =
          .error (.projectPackageManagerMismatch spec.name target))) ∧
    (spec.name = locator.name →
      findProjectSpec cfg pe sem renv ienv penv locator transparent = .ok spec) := by
  have hps' : (pe.enableProjectSpec == some "0") = false := beq_eq_false_iff_ne.mpr hps
  constructor
  · intro hne
    constructor
    · rintro (ht | hs)
      · subst ht
        by_cases hstrict : (pe.enableStrict == some "0") = true
        · simp [findProjectSpec, hps', hfound, hne, hstrict]
        · simp only [Bool.not_eq_true] at hstrict
          simp [findProjectSpec, hps', hfound, hne, hstrict]
      · have hs' : (pe.enableStrict == some "0") = true := beq_iff_eq.mpr hs
        simp [findProjectSpec, hps', hfound, hne, hs']
    · intro ht hs
      have hs' : (pe.enableStrict == some "0") = false := beq_eq_false_iff_ne.mpr hs
      subst ht
      simp [findProjectSpec, hps', hfound, hne, hs']
  · intro heq
    simp [findProjectSpec, hps', hfound, heq]

/-- C5 witness: a project pinning pnpm: requesting yarn non-transparently
fails with ProjectPackageManagerMismatch naming the project file; requesting
yarn transparently returns the fallback descriptor; requesting pnpm returns
the project's own descriptor 8.6.0 verbatim (fallback range 8.0.0 ignored). -/
theorem C5_witness :
    (demoFoundProjectEnv.loadSpec = .Found "/proj/package.json" ⟨"pnpm", "8.6.0"⟩ ∧
     demoProcessEnv.enableProjectSpec ≠ some "0") ∧
    findProjectSpec demoTConfig demoProcessEnv semverDemo demoTResolveEnv
        demoOkInstallEnv demoFoundProjectEnv ⟨"yarn", some "4.0.0"⟩ false =
      .error (.projectPackageManagerMismatch "pnpm" "/proj/package.json") ∧
    findProjectSpec demoTConfig demoProcessEnv semverDemo demoTResolveEnv
        demoOkInstallEnv demoFoundProjectEnv ⟨"yarn", some "4.0.0"⟩ true =
      .ok ⟨"yarn", "4.0.0"⟩ ∧
    findProjectSpec demoTConfig demoProcessEnv semverDemo demoTResolveEnv
        demoOkInstallEnv demoFoundProjectEnv ⟨"pnpm", some "8.0.0"⟩ false =
      .ok ⟨"pnpm", "8.6.0"⟩ := by
  obtain ⟨hmisF, _⟩ := C5_found_pin demoTConfig demoProcessEnv semverDemo demoTResolveEnv
    demoOkInstallEnv demoFoundProjectEnv ⟨"yarn", some "4.0.0"⟩ false
    "/proj/package.json" ⟨"pnpm", "8.6.0"⟩ (by decide) (by decide)
  obtain ⟨hmisT, _⟩ := C5_found_pin demoTConfig demoProcessEnv semverDemo demoTResolveEnv
    demoOkInstallEnv demoFoundProjectEnv ⟨"yarn", some "4.0.0"⟩ true
    "/proj/package.json" ⟨"pnpm", "8.6.0"⟩ (by decide) (by decide)
  obtain ⟨_, hmatch⟩ := C5_found_pin demoTConfig demoProcessEnv semverDemo demoTResolveEnv
    demoOkInstallEnv demoFoundProjectEnv ⟨"pnpm", some "8.0.0"⟩ false
    "/proj/package.json" ⟨"pnpm", "8.6.0"⟩ (by decide) (by decide)
  exact ⟨⟨by decide, by decide⟩,
    (hmisF (by decide)).2 rfl (by decide),
    (hmisT (by decide)).1 (Or.inl rfl),
    hmatch (by decide)⟩

/-- C6 counterexample: the auto-pin write in findProjectSpec's NoSpec branch
does not swallow failures. With auto-pin enabled, resolution and install
succeeding, but the pin write failing, findProjectSpec raises the write's
error instead of returning the fallback descriptor. -/
theorem C6_counterexample :
    findProjectSpec demoTConfig demoProcessEnv semverDemo demoTResolveEnv
      demoOkInstallEnv demoFailingPinProjectEnv ⟨"T", some "1.0.0"⟩ false =
      .error .fsError := by decide

/-- C6 (amended): the Last-Known-Good record write in getDefaultVersion is
best-effort — its failure is swallowed and the freshly fetched latest stable
version is still returned (the result does not depend on whether the store
write succeeds). The auto-pin write in findProjectSpec's NoSpec branch is
not best-effort: a failure of the pin write propagates out of
findProjectSpec. -/
theorem C6_amended (cfg : Config) (pe : ProcessEnv) (sem : SemverApi)
    (renv : ResolveEnv) (ienv : InstallEnv) (penv : ProjectEnv)
    (denv : DefaultVersionEnv) (pm : String) (locator : FallbackLocator)
    (transparent : Bool) (target : String) (resolved : Locator)
    (installSpec : EnsureResult) (e : EngineError)
    (definition : PackageManagerDefinition) (store : List (String × String))
    (hdefn : cfg.definitions.lookup pm = some definition)
    (hstore : getLastKnownGood denv.lkgRead = .ok store)
    (hmiss : store.lookup pm = none)
    (hlatest : pe.defaultToLatest ≠ some "0")
    (hps : pe.enableProjectSpec ≠ some "0")
    (hnospec : penv.loadSpec = .NoSpec target)
    (hpin : pe.enableAutoPin ≠ some "0")
    (hres : (resolveDescriptor cfg pe sem renv
       ⟨locator.name, jsTemplate locator.reference⟩ true true).1 =
         .ok (some resolved))
    (hens : ensurePackageManager cfg sem ienv resolved = .ok installSpec)
    (hwrite : penv.setLocalPackageManager (jsDirname target) installSpec = .error e) :
    (∀ writeOk, getDefaultVersion cfg pe { denv with writeOk := writeOk } pm =
       .ok (denv.fetchLatestStableVersion definition.fetchLatestFrom)) ∧
    findProjectSpec cfg pe sem renv ienv penv locator transparent = .error e := by
  have hlatest' : (pe.defaultToLatest == some "0") = false := beq_eq_false_iff_ne.mpr hlatest
  have hps' : (pe.enableProjectSpec == some "0") = false := beq_eq_false_iff_ne.mpr hps
  have hpin' : (pe.enableAutoPin == some "0") = false := beq_eq_false_iff_ne.mpr hpin
  constructor
  · intro writeOk
    unfold getDefaultVersion
    rw [hdefn]
    simp only []
    rw [show ({ denv with writeOk := writeOk } : DefaultVersionEnv).lkgRead =
      denv.lkgRead from rfl, hstore]
    simp [getLastKnownGoodFromFileContent, hmiss, hlatest']
  · unfold findProjectSpec
    rw [hps', hnospec]
    rcases hr : resolveDescriptor cfg pe sem renv
        ⟨locator.name, jsTemplate locator.reference⟩ true true with ⟨res, effs⟩
    rw [hr] at hres
    simp only at hres
    subst hres
    simp [hpin', hr, hens, hwrite]

/-- C6 witness: concrete instantiation of the amended claim: the store write
outcome never affects getDefaultVersion's result (latest 2.0.0 is returned
either way), while the failing auto-pin write makes findProjectSpec raise. -/
theorem C6_witness :
    (demoFailingPinProjectEnv.loadSpec = .NoSpec "/proj/package.json" ∧
     (resolveDescriptor demoTConfig demoProcessEnv semverDemo demoTResolveEnv
        ⟨"T", jsTemplate (some "1.0.0")⟩ true true).1 = .ok (some ⟨"T", "1.0.0"⟩) ∧
     ensurePackageManager demoTConfig semverDemo demoOkInstallEnv ⟨"T", "1.0.0"⟩ =
       .ok ⟨"cafebabe", ⟨"T", "1.0.0+cafebabe"⟩, ⟨"regA"⟩⟩) ∧
    (∀ writeOk, getDefaultVersion demoTConfig demoProcessEnv
       { demoDefaultVersionEnv with writeOk := writeOk } "T" = .ok "2.0.0") ∧
    findProjectSpec demoTConfig demoProcessEnv semverDemo demoTResolveEnv
      demoOkInstallEnv demoFailingPinProjectEnv ⟨"T", some "1.0.0"⟩ false =
      .error .fsError := by
  obtain ⟨h1, h2⟩ := C6_amended demoTConfig demoProcessEnv semverDemo demoTResolveEnv
    demoOkInstallEnv demoFailingPinProjectEnv demoDefaultVersionEnv "T"
    ⟨"T", some "1.0.0"⟩ false "/proj/package.json" ⟨"T", "1.0.0"⟩
    ⟨"cafebabe", ⟨"T", "1.0.0+cafebabe"⟩, ⟨"regA"⟩⟩ .fsError demoTDefinition []
    (by decide) (by decide) (by decide) (by decide) (by decide) (by decide)
    (by decide) (by decide) (by decide) (by decide)
  exact ⟨⟨by decide, by decide, by decide⟩, h1, h2⟩

/-- A Last-Known-Good file whose entry for T is the empty string. -/
def demoEmptyEntryEnv : DefaultVersionEnv where
  lkgRead := .content (some (.obj [("T", .str "")]))
  fetchLatestStableVersion := fun _ => "2.0.0"
  writeOk := true

/-- A Last-Known-Good file recording T at 1.21.0. -/
def demoLkgEnv : DefaultVersionEnv where
  lkgRead := .content (some (.obj [("T", .str "1.21.0")]))
  fetchLatestStableVersion := fun _ => "2.0.0"
  writeOk := true

/-- A process environment opting out of default-to-latest. -/
def demoLatestOptOutEnv : ProcessEnv := { defaultToLatest := some "0" }

/-- C7 counterexample: the claim says a store entry wins unconditionally
whenever present, but the source guards the entry with JS truthiness
(`if (lastKnownGoodForThisPackageManager)`): a present empty-string entry
(which survives loading, being a string) is skipped, and the static default
1.0.0 is returned instead of the entry. -/
theorem C7_counterexample :
    getLastKnownGood demoEmptyEntryEnv.lkgRead = .ok [("T", "")] ∧
    getLastKnownGoodFromFileContent [("T", "")] "T" = some "" ∧
    getDefaultVersion demoTConfig demoLatestOptOutEnv demoEmptyEntryEnv "T" =
      .ok "1.0.0" := by decide

/-- C7 (amended): getDefaultVersion returns the Last-Known-Good entry
whenever a non-empty entry exists (an empty-string entry is skipped like a
missing one, by JS truthiness); with no such entry it returns the
Definition's static default when COREPACK_DEFAULT_TO_LATEST=0, else the
freshly fetched latest stable version. -/
theorem C7_amended (cfg : Config) (pe : ProcessEnv) (denv : DefaultVersionEnv)
    (pm : String) (definition : PackageManagerDefinition)
    (store : List (String × String))
    (hdefn : cfg.definitions.lookup pm = some definition)
    (hstore : getLastKnownGood denv.lkgRead = .ok store) :
    (∀ v, store.lookup pm = some v → v ≠ "" →
       getDefaultVersion cfg pe denv pm = .ok v) ∧
    (store.lookup pm = none ∨ store.lookup pm = some "" →
      (pe.defaultToLatest = some "0" →
         getDefaultVersion cfg pe denv pm = .ok definition.dflt) ∧
      (pe.defaultToLatest ≠ some "0" →
         getDefaultVersion cfg pe denv pm =
           .ok (denv.fetchLatestStableVersion definition.fetchLatestFrom))) := by
  constructor
  · intro v hv hne
    unfold getDefaultVersion
    rw [hdefn, hstore]
    simp [getLastKnownGoodFromFileContent, hv, hne]
  · intro hmiss
    constructor
    · intro hlatest
      have hlatest' : (pe.defaultToLatest == some "0") = true := beq_iff_eq.mpr hlatest
      unfold getDefaultVersion
      rw [hdefn, hstore]
      rcases hmiss with hm | hm <;> simp [getLastKnownGoodFromFileContent, hm, hlatest']
    · intro hlatest
      have hlatest' : (pe.defaultToLatest == some "0") = false :=
        beq_eq_false_iff_ne.mpr hlatest
      unfold getDefaultVersion
      rw [hdefn, hstore]
      rcases hmiss with hm | hm <;> simp [getLastKnownGoodFromFileContent, hm, hlatest']

/-- C7 witness: a non-empty entry 1.21.0 is returned as-is; with an
empty-string entry and default-to-latest disabled, the static default 1.0.0
is returned; with no entry at all and the flag unset, the freshly fetched
latest stable 2.0.0 is returned. -/
theorem C7_witness :
    (demoTConfig.definitions.lookup "T" = some demoTDefinition ∧
     getLastKnownGood demoLkgEnv.lkgRead = .ok [("T", "1.21.0")]) ∧
    getDefaultVersion demoTConfig demoProcessEnv demoLkgEnv "T" = .ok "1.21.0" ∧
    getDefaultVersion demoTConfig demoLatestOptOutEnv demoEmptyEntryEnv "T" =
      .ok "1.0.0" ∧
    getDefaultVersion demoTConfig demoProcessEnv demoDefaultVersionEnv "T" =
      .ok "2.0.0" := by
  obtain ⟨hentry, _⟩ := C7_amended demoTConfig demoProcessEnv demoLkgEnv "T"
    demoTDefinition [("T", "1.21.0")] (by decide) (by decide)
  obtain ⟨_, hrest2⟩ := C7_amended demoTConfig demoLatestOptOutEnv demoEmptyEntryEnv "T"
    demoTDefinition [("T", "")] (by decide) (by decide)
  obtain ⟨_, hrest3⟩ := C7_amended demoTConfig demoProcessEnv demoDefaultVersionEnv "T"
    demoTDefinition [] (by decide) (by decide)
  exact ⟨⟨by decide, by decide⟩,
    hentry "1.21.0" (by decide) (by decide),
    (hrest2 (Or.inr (by decide))).1 (by decide),
    (hrest3 (Or.inl (by decide))).2 (by decide)⟩

/-- C8: activation is idempotent. If the store's value for the locator's
name already equals its reference, nothing is written and the store is
unchanged; otherwise the entry is set and persisted, the store's value then
equals the reference, and a second activation of the same locator performs
no further write — two activations make exactly one store write. -/
theorem C8_activate_idempotent (writeOk : Bool) (store : List (String × String))
    (locator : Locator) :
    (store.lookup locator.name = some locator.reference →
       activatePackageManager writeOk store locator = .ok (store, false)) ∧
    (store.lookup locator.name ≠ some locator.reference → writeOk = true →
       ∃ store', activatePackageManager writeOk store locator = .ok (store', true) ∧
         store'.lookup locator.name = some locator.reference ∧
         activatePackageManager writeOk store' locator = .ok (store', false)) := by
  constructor
  · intro h
    simp [activatePackageManager, h]
  · intro h hw
    subst hw
    have h' : (store.lookup locator.name == some locator.reference) = false :=
      beq_eq_false_iff_ne.mpr h
    refine ⟨jsObjSet store locator.name locator.reference, ?_, ?_, ?_⟩
    · simp [activatePackageManager, h']
    · exact jsObjSet_lookup store locator.name locator.reference
    · simp [activatePackageManager, jsObjSet_lookup store locator.name locator.reference]

/-- C8 witness: activating npm 9.0.0 on an empty store writes once; the
store's value is then 9.0.0 and a second activation is a no-op. -/
theorem C8_witness :
    ([] : List (String × String)).lookup "npm" ≠ some "9.0.0" ∧
    ∃ store', activatePackageManager true [] ⟨"npm", "9.0.0"⟩ = .ok (store', true) ∧
      store'.lookup "npm" = some "9.0.0" ∧
      activatePackageManager true store' ⟨"npm", "9.0.0"⟩ = .ok (store', false) :=
  ⟨by decide, (C8_activate_idempotent true [] ⟨"npm", "9.0.0"⟩).2 (by decide) rfl⟩

/-- C9: loading the Last-Known-Good store never raises for a missing file
(empty store) or for unparseable or non-object content (empty store); object
content keeps exactly the string-valued entries, dropping every entry whose
value is not a string; any read error other than file-absent propagates. -/
theorem C9_lkg_load (v : JVal) (fields : List (String × JVal)) :
    getLastKnownGood .enoent = .ok [] ∧
    getLastKnownGood (.content none) = .ok [] ∧
    (jsFalsy v = true ∨ jsTypeof v ≠ "object" →
       getLastKnownGood (.content (some v)) = .ok []) ∧
    (∃ store, getLastKnownGood (.content (some (.obj fields))) = .ok store ∧
       ∀ k s, (k, s) ∈ store ↔ (k, JVal.str s) ∈ fields) ∧
    getLastKnownGood .readError = .error .fsError := by
  refine ⟨rfl, rfl, ?_, ?_, rfl⟩
  · intro hv
    rcases hv with hv | hv
    · simp [getLastKnownGood, hv]
    · by_cases hf : jsFalsy v
      · simp [getLastKnownGood, hf]
      · simp [getLastKnownGood, hf, hv]
  · refine ⟨_, rfl, ?_⟩
    intro k s
    rw [List.mem_filterMap]
    constructor
    · rintro ⟨⟨k', v'⟩, hmem, heq⟩
      cases v' <;> simp only [Option.some.injEq, Prod.mk.injEq, reduceCtorEq] at heq
      obtain ⟨rfl, rfl⟩ := heq
      exact hmem
    · intro hmem
      exact ⟨(k, .str s), hmem, rfl⟩

/-- C9 witness: string content is treated as an empty store; an object with a
non-string value keeps exactly its string entry; missing file and parse
failure give the empty store; other read errors propagate. -/
theorem C9_witness :
    (jsFalsy (JVal.str "9.0.0") = true ∨ jsTypeof (JVal.str "9.0.0") ≠ "object") ∧
    (getLastKnownGood .enoent = .ok [] ∧
     getLastKnownGood (.content none) = .ok [] ∧
     (jsFalsy (JVal.str "9.0.0") = true ∨ jsTypeof (JVal.str "9.0.0") ≠ "object" →
        getLastKnownGood (.content (some (JVal.str "9.0.0"))) = .ok []) ∧
     (∃ store,
        getLastKnownGood (.content (some (.obj
          [("npm", JVal.str "9.0.0"), ("bad", JVal.num 3)]))) = .ok store ∧
        ∀ k s, (k, s) ∈ store ↔
          (k, JVal.str s) ∈ [("npm", JVal.str "9.0.0"), ("bad", JVal.num 3)]) ∧
     getLastKnownGood .readError = .error .fsError) :=
  ⟨Or.inr (by decide),
   C9_lkg_load (JVal.str "9.0.0") [("npm", JVal.str "9.0.0"), ("bad", JVal.num 3)]⟩

/-- C10: a request whose binary belongs to no known tool (null
packageManager) builds the fallback locator with an undefined reference; the
fallback descriptor findProjectSpec constructs from it has the literal range
"undefined" (JS template interpolation of undefined), and with no project
pin and no version override that descriptor is what resolution receives. -/
theorem C10_undefined_fallback (cfg : Config) (pe : ProcessEnv) (sem : SemverApi)
    (renv : ResolveEnv) (ienv : InstallEnv) (penv : ProjectEnv)
    (denv : DefaultVersionEnv) (binaryName : String) (args : List String)
    (hnoproject : penv.loadSpec = .NoProject) :
    executePackageManagerRequestDescriptor cfg pe sem renv ienv penv denv
        none binaryName none args =
      .ok (⟨binaryName, none⟩, ⟨binaryName, "undefined"⟩) := by
  have hfps : findProjectSpec cfg pe sem renv ienv penv ⟨binaryName, none⟩ false =
      .ok ⟨binaryName, "undefined"⟩ := by
    by_cases hps : (pe.enableProjectSpec == some "0") = true
    · simp [findProjectSpec, hps, jsTemplate]
    · simp only [Bool.not_eq_true] at hps
      simp [findProjectSpec, hps, hnoproject, jsTemplate]
  unfold executePackageManagerRequestDescriptor
  simp [hfps]

/-- C10 witness: with no project boundary, requesting an unknown binary mytool
hands resolution the descriptor with the literal range "undefined". -/
theorem C10_witness :
    demoNoProjectEnv.loadSpec = .NoProject ∧
    executePackageManagerRequestDescriptor demoTConfig demoProcessEnv semverDemo
        demoTResolveEnv demoOkInstallEnv demoNoProjectEnv demoDefaultVersionEnv
        none "mytool" none ["install"] =
      .ok (⟨"mytool", none⟩, ⟨"mytool", "undefined"⟩) :=
  ⟨by decide,
   C10_undefined_fallback demoTConfig demoProcessEnv semverDemo demoTResolveEnv
     demoOkInstallEnv demoNoProjectEnv demoDefaultVersionEnv "mytool" ["install"]
     (by decide)⟩

end Corepack
